import Mathlib

/- Verification development for the dblp-norm repository.

   The repository has two scripts, dblp-from-pdf.py (the PDF ingestion
   workflow, suffix Pdf below) and dblp-norm.py (the BibTeX normalization
   workflow, suffix Norm below).  Both define normalize_author_name,
   get_author_similarity and fetch_dblp_entry; the versions differ.  This
   file gives a shallow embedding of those functions and of the output file
   serialization, working over explicit character lists so every definition
   is executable by kernel reduction.

   Modeling conventions, stated once here:
   - Python strings are Lean String values; all character level operations
     are carried out on the data field (a list of characters).  Inputs of
     interest are ASCII, and the ASCII fragments of Python lower, strip,
     split and sorted coincide with the embeddings below.
   - Python dictionaries appearing as author objects carry, in every code
     path the scripts exercise, at most the key text (plus identifier keys
     the code never reads); an author object is modeled by its optional
     text field.  Iterating such a dictionary yields its keys.
   - Python floats are modeled by exact rationals; round is the round half
     to even rounding that Python uses.
   - The fuzzywuzzy scorer fuzz.token_sort_ratio is embedded from its
     definition: full_process both strings (ASCII filter, replace non word
     characters by spaces, lowercase, strip), sort the whitespace tokens,
     rejoin with single spaces and apply the difflib SequenceMatcher ratio
     round(100 * 2 * M / T), where M is the total size of the recursively
     chosen longest matching blocks and T the sum of the lengths. -/

/-- Python str.lower, character by character (ASCII case folding). -/
def lowerChars (l : List Char) : List Char := l.map Char.toLower

/-- Python str.split with no separator: split on whitespace runs, dropping
empty pieces.  The accumulator holds the current token reversed. -/
def wsSplitAux : List Char → List Char → List (List Char)
  | [], cur => if cur = [] then [] else [cur.reverse]
  | c :: t, cur =>
      if c.isWhitespace then
        (if cur = [] then wsSplitAux t [] else cur.reverse :: wsSplitAux t [])
      else wsSplitAux t (c :: cur)

/-- Python str.split with no separator, on a character list. -/
def wsSplit (l : List Char) : List (List Char) := wsSplitAux l []

/-- Python sep.join, on character lists. -/
def joinSep (sep : List Char) : List (List Char) → List Char
  | [] => []
  | [x] => x
  | x :: y :: t => x ++ sep ++ joinSep sep (y :: t)

/-- Python str.strip: drop leading and trailing whitespace. -/
def stripChars (l : List Char) : List Char :=
  ((l.dropWhile Char.isWhitespace).reverse.dropWhile Char.isWhitespace).reverse

/-- A Python value passed as one author name: a plain string, an author
object (a dictionary, modeled by its optional text field), or None. -/
inductive NameVal
  | vstr (s : String)
  | vdict (text : Option String)
  | vnone
deriving DecidableEq

/-- The string normalize_author_name works on after the dictionary check:
a dictionary yields name.get with key text and default empty, and str
applied to None yields the four letter string None. -/
def nameValStr : NameVal → String
  | .vstr s => s
  | .vdict t => t.getD ""
  | .vnone => "None"

/-- normalize_author_name, identical in both scripts: take the text field
of a dictionary, lowercase, and collapse whitespace runs to single spaces
with the ends trimmed. -/
def normalize_author_name (n : NameVal) : String :=
  String.mk (joinSep [' '] (wsSplit (lowerChars (nameValStr n).data)))

/-- A regex word character, the class kept by fuzzywuzzy full_process. -/
def isWordChar (c : Char) : Bool := c.isAlphanum || c = '_'

/-- The force_ascii step of the fuzzywuzzy scorers: drop non ASCII. -/
def asciiOnly (l : List Char) : List Char := l.filter (fun c => decide (c.toNat < 128))

/-- Replace every non word character by a space. -/
def toWordSpace (l : List Char) : List Char := l.map (fun c => if isWordChar c then c else ' ')

/-- fuzzywuzzy utils.full_process with force_ascii. -/
def fullProcess (l : List Char) : List Char :=
  stripChars (lowerChars (toWordSpace (asciiOnly l)))

/-- Python string comparison: lexicographic on code points. -/
def lexLe : List Char → List Char → Bool
  | [], _ => true
  | _ :: _, [] => false
  | a :: as, b :: bs => if a = b then lexLe as bs else decide (a < b)

/-- Insertion step of a stable insertion sort under lexLe. -/
def insertLex (x : List Char) : List (List Char) → List (List Char)
  | [] => [x]
  | y :: t => if lexLe x y then x :: y :: t else y :: insertLex x t

/-- Python sorted on a list of strings (any correct sort gives the same
sorted token list, which is all the scorer consumes). -/
def sortLex : List (List Char) → List (List Char)
  | [] => []
  | x :: t => insertLex x (sortLex t)

/-- The k characters of a starting at i equal the k characters of b
starting at j, and both windows are in range. -/
def sliceOk (a b : List Char) (i j k : ℕ) : Bool :=
  decide (i + k ≤ a.length) && decide (j + k ≤ b.length)
    && decide ((a.drop i).take k = (b.drop j).take k)

/-- Concatenation of the images of f, in order. -/
def listJoinMap (f : α → List β) : List α → List β
  | [] => []
  | x :: t => f x ++ listJoinMap f t

/-- All matching blocks of a and b, listed with the block size k descending
and, within one size, the start positions in lexicographic order.  The head
is therefore the block difflib find_longest_match returns: a longest
matching block, earliest in a, then earliest in b. -/
def matchCandidates (a b : List Char) : List (ℕ × ℕ × ℕ) :=
  listJoinMap (fun k =>
      listJoinMap (fun i =>
          listJoinMap (fun j => if sliceOk a b i j k then [(i, j, k)] else [])
            (List.range (b.length + 1 - k)))
        (List.range (a.length + 1 - k)))
    ((List.range (min a.length b.length + 1)).reverse)

/-- difflib SequenceMatcher find_longest_match over the whole ranges (the
inputs hold no junk elements: they are short processed token strings, so
the autojunk heuristic, which needs 200 characters, never fires). -/
def findLongestMatch (a b : List Char) : ℕ × ℕ × ℕ :=
  (matchCandidates a b).headD (0, 0, 0)

/-- The total size of the matching blocks difflib get_matching_blocks
collects: take the longest match, then recurse on the parts before and on
the parts after it.  The fuel argument only serves structural recursion;
each recursive call strictly shrinks the first list, so any fuel above the
length of the first list is enough and the value is the difflib one. -/
def matchingTotalFuel : ℕ → List Char → List Char → ℕ
  | 0, _, _ => 0
  | fuel + 1, a, b =>
      if (findLongestMatch a b).2.2 = 0 then 0
      else
        (findLongestMatch a b).2.2
          + matchingTotalFuel fuel (a.take (findLongestMatch a b).1)
              (b.take (findLongestMatch a b).2.1)
          + matchingTotalFuel fuel
              (a.drop ((findLongestMatch a b).1 + (findLongestMatch a b).2.2))
              (b.drop ((findLongestMatch a b).2.1 + (findLongestMatch a b).2.2))

/-- The matched total M of difflib SequenceMatcher on a and b. -/
def matchingTotal (a b : List Char) : ℕ := matchingTotalFuel (a.length + 1) a b

/-- Python round: round half to even.  Rat.floor is used rather than the
floor notation so that the definition evaluates by kernel reduction. -/
def pyRound (q : ℚ) : ℤ :=
  if q - (Rat.floor q : ℚ) < 1/2 then Rat.floor q
  else if 1/2 < q - (Rat.floor q : ℚ) then Rat.floor q + 1
  else if Rat.floor q % 2 = 0 then Rat.floor q else Rat.floor q + 1

/-- fuzz.ratio of two already processed strings:
round(100 * 2 * M / T), and 100 when both strings are empty. -/
def seqScore (a b : List Char) : ℕ :=
  if a.length + b.length = 0 then 100
  else (pyRound (((200 * matchingTotal a b : ℕ) : ℚ) / ((a.length + b.length : ℕ) : ℚ))).toNat

/-- The processed and sorted form a string takes inside token_sort_ratio:
full_process, split into tokens, sort, rejoin with single spaces, strip. -/
def tokenSortKey (l : List Char) : List Char :=
  stripChars (joinSep [' '] (sortLex (wsSplit (fullProcess l))))

/-- fuzz.token_sort_ratio. -/
def tokenSortScore (s1 s2 : String) : ℕ :=
  seqScore (tokenSortKey s1.data) (tokenSortKey s2.data)

/-- Prefix test on character lists. -/
def startsWithChars : List Char → List Char → Bool
  | [], _ => true
  | _ :: _, [] => false
  | p :: ps, c :: cs => p = c && startsWithChars ps cs

/-- Contiguous containment on character lists (Python in on strings). -/
def isSubChars (p : List Char) : List Char → Bool
  | [] => startsWithChars p []
  | c :: t => startsWithChars p (c :: t) || isSubChars p t

/-- Python substring containment x in y. -/
def isSubOf (x y : String) : Bool := isSubChars x.data y.data

/-- The separator both scripts split author strings on. -/
def sepAnd : List Char := [' ', 'a', 'n', 'd', ' ']

/-- Python split on the five character separator, leftmost first.  The
fuel only drives structural recursion; every step consumes at least one
character, so fuel above the length of the input never runs out. -/
def splitAndAux : ℕ → List Char → List Char → List (List Char)
  | 0, cur, l => [cur.reverse ++ l]
  | _ + 1, cur, [] => [cur.reverse]
  | fuel + 1, cur, c :: t =>
      if startsWithChars sepAnd (c :: t) then
        cur.reverse :: splitAndAux fuel [] ((c :: t).drop 5)
      else splitAndAux fuel (c :: cur) t

/-- Python s.split on the separator string of sepAnd. -/
def splitAnd (s : String) : List String :=
  (splitAndAux (s.data.length + 1) [] s.data).map String.mk

section

attribute [local semireducible] Rat.mul Rat.inv Rat.add Rat.sub

/-- A Python value passed as an authors argument to get_author_similarity:
a plain string (split on the separator), a list of names or author
objects, the whole authors field of a DBLP hit (a dictionary with the
key author holding a list or a single author object), or a bare author
object. -/
inductive AuthorsArg
  | ofStr (s : String)
  | ofList (l : List NameVal)
  | ofAuthorsList (l : List (Option String))
  | ofAuthorsOne (t : Option String)
  | ofObj (t : Option String)
deriving DecidableEq

/-- Python truthiness of an authors argument: empty strings, empty lists
and empty dictionaries are falsy; a dictionary with the author key is
always truthy, and a bare author object is truthy when it has its text
key. -/
def argTruthy : AuthorsArg → Bool
  | .ofStr s => decide (s ≠ "")
  | .ofList l => decide (l ≠ [])
  | .ofAuthorsList _ => true
  | .ofAuthorsOne _ => true
  | .ofObj t => t.isSome

/-- The authors argument denotes an empty author list: the empty string
or the empty list (the shapes the scripts treat as lists of names). -/
def isEmptyArg : AuthorsArg → Bool
  | .ofStr s => decide (s = "")
  | .ofList l => decide (l = [])
  | _ => false

/-- The name list obtained from an authors argument by the handling both
scripts apply to authors1 (and dblp-norm.py also to authors2): a string is
split on the separator and each piece normalized; anything else is
iterated and each element normalized.  Iterating a dictionary yields its
keys: the key author for an authors field, the key text for a bare author
object that has one. -/
def argNames : AuthorsArg → List String
  | .ofStr s => (splitAnd s).map (fun t => normalize_author_name (.vstr t))
  | .ofList l => l.map normalize_author_name
  | .ofAuthorsList _ => [normalize_author_name (.vstr "author")]
  | .ofAuthorsOne _ => [normalize_author_name (.vstr "author")]
  | .ofObj t => if t.isSome then [normalize_author_name (.vstr "text")] else []

/-- The name list dblp-from-pdf.py builds from authors2: strings are split
and normalized; a dictionary with the author key yields the raw text
fields of its author objects, with no normalization; other values are
iterated and normalized as in argNames. -/
def argNamesPdf2 : AuthorsArg → List String
  | .ofStr s => (splitAnd s).map (fun t => normalize_author_name (.vstr t))
  | .ofList l => l.map normalize_author_name
  | .ofAuthorsList l => l.map (fun t => t.getD "")
  | .ofAuthorsOne t => [t.getD ""]
  | .ofObj t => if t.isSome then [normalize_author_name (.vstr "text")] else []

/-- The multi author path shared by both scripts: for each name of the
first list take the best token sort score against the second list (0 when
the second list is empty, matching extractOne returning None), sum, and
divide by the length of the first list. -/
def bestMatchScore (q : String) (choices : List String) : ℕ :=
  (choices.map (fun c => tokenSortScore q c)).foldr max 0

/-- Average of the best match scores over the first list (Python float
division, modeled exactly on rationals). -/
def avgScore (l1 l2 : List String) : ℚ :=
  ((l1.map (fun x => ((bestMatchScore x l2 : ℕ) : ℚ))).sum) / ((l1.length : ℕ) : ℚ)

/-- get_author_similarity of dblp-from-pdf.py: after the truthiness guard
and shape handling, single name on both sides takes the lenient path
(100 on equality, 90 on containment either way, otherwise the token sort
score if above 60 and else 0); any other shape takes the averaged best
match path. -/
def get_author_similarity_pdf (a1 a2 : AuthorsArg) : ℚ :=
  if !argTruthy a1 || !argTruthy a2 then 0
  else
    match argNames a1, argNamesPdf2 a2 with
    | [x], [y] =>
        if x = y then 100
        else if isSubOf x y || isSubOf y x then 90
        else if 60 < tokenSortScore x y then ((tokenSortScore x y : ℕ) : ℚ) else 0
    | l1, l2 => avgScore l1 l2

/-- get_author_similarity of dblp-norm.py: after the truthiness guard and
shape handling it always takes the averaged best match path; it has no
single author fast path. -/
def get_author_similarity_norm (a1 a2 : AuthorsArg) : ℚ :=
  if !argTruthy a1 || !argTruthy a2 then 0
  else avgScore (argNames a1) (argNames a2)

/-- The authors field of a DBLP hit: the value of its author key is a list
of author objects or a single author object (each object modeled by its
optional text field). -/
inductive AuthorsField
  | alist (l : List (Option String))
  | aone (t : Option String)
deriving DecidableEq

/-- The info object of a DBLP hit: an optional authors field and the
record url.  The result count of the search response is modeled as the
length of the hit list. -/
structure HitInfo where
  authors : Option AuthorsField
  url : String
deriving DecidableEq

/-- One DBLP search hit. -/
structure Hit where
  info : HitInfo
deriving DecidableEq

/-- The reasons fetch_dblp_entry returns None, one per rejecting branch:
no match at all, several matches without an author signal, and an author
similarity below the acceptance floor. -/
inductive RejectReason
  | no_hits
  | ambiguous_no_authors
  | low_similarity
deriving DecidableEq

/-- The decision fetch_dblp_entry reaches before any record fetch: accept
one hit (with the checked similarity, or none when no author check was
possible) or reject. -/
inductive MatchDecision
  | accepted (h : Hit) (sim : Option ℚ)
  | rejected (r : RejectReason)
deriving DecidableEq

/-- Python truthiness of the original_authors argument: None and the
empty string are falsy. -/
def origTruthy : Option String → Bool
  | none => false
  | some s => decide (s ≠ "")

/-- The authors2 argument dblp-from-pdf.py passes for a hit: the whole
authors field. -/
def fieldArgPdf : AuthorsField → AuthorsArg
  | .alist l => .ofAuthorsList l
  | .aone t => .ofAuthorsOne t

/-- The authors2 argument dblp-norm.py passes for a hit: the value of the
author key, a list of author objects or a bare author object. -/
def fieldArgNorm : AuthorsField → AuthorsArg
  | .alist l => .ofList (l.map NameVal.vdict)
  | .aone t => .ofObj t

/-- The similarity dblp-from-pdf.py computes for one hit. -/
def pdfSimOf (o : String) (f : AuthorsField) : ℚ :=
  get_author_similarity_pdf (.ofStr o) (fieldArgPdf f)

/-- The similarity dblp-norm.py computes for one hit. -/
def normSimOf (o : String) (f : AuthorsField) : ℚ :=
  get_author_similarity_norm (.ofStr o) (fieldArgNorm f)

/-- The best match loop of the multiple hit branch, identical in both
scripts: hits without an authors field are skipped, and the best pair is
replaced only on a strictly greater similarity, starting from no hit and
similarity 0. -/
def bestScanAux (sim : AuthorsField → ℚ) : List Hit → Option Hit × ℚ → Option Hit × ℚ
  | [], acc => acc
  | h :: t, acc =>
      bestScanAux sim t
        (match h.info.authors with
         | none => acc
         | some f => if acc.2 < sim f then (some h, sim f) else acc)

/-- The best match loop run from its initial state. -/
def bestScan (sim : AuthorsField → ℚ) (hits : List Hit) : Option Hit × ℚ :=
  bestScanAux sim hits (none, 0)

/-- The scan of the multiple hit branch of dblp-from-pdf.py. -/
def bestScanPdf (hits : List Hit) (o : String) : Option Hit × ℚ :=
  bestScan (pdfSimOf o) hits

/-- The scan of the multiple hit branch of dblp-norm.py. -/
def bestScanNorm (hits : List Hit) (o : String) : Option Hit × ℚ :=
  bestScan (normSimOf o) hits

/-- The decision logic of fetch_dblp_entry in dblp-from-pdf.py, with the
network calls stripped: no hits rejects; several hits with a truthy
original_authors scan for the best author match and accept it at
similarity at least 60; several hits otherwise are ambiguous; a single
hit is author checked at the same floor only when both the original
authors and the hit authors are present, and accepted unconditionally
otherwise.  In the multiple hit branch the accepted hit is the scanned
best; the scan invariant (no best hit forces similarity 0, proved below)
makes the branch with a passing floor and no best hit unreachable, so
rejecting there is faithful. -/
def fetch_dblp_entry_pdf (hits : List Hit) (orig : Option String) : MatchDecision :=
  match hits with
  | [] => .rejected .no_hits
  | [h] =>
      match h.info.authors with
      | some f =>
          if origTruthy orig then
            if pdfSimOf (orig.getD "") f < 60 then .rejected .low_similarity
            else .accepted h (some (pdfSimOf (orig.getD "") f))
          else .accepted h none
      | none => .accepted h none
  | _ :: _ :: _ =>
      if origTruthy orig then
        if 60 ≤ (bestScanPdf hits (orig.getD "")).2 then
          match (bestScanPdf hits (orig.getD "")).1 with
          | some b => .accepted b (some (bestScanPdf hits (orig.getD "")).2)
          | none => .rejected .low_similarity
        else .rejected .low_similarity
      else .rejected .ambiguous_no_authors

/-- The decision logic of fetch_dblp_entry in dblp-norm.py: the same
shape as the pdf workflow but with acceptance floor 70 and with the
authors2 argument being the value of the author key. -/
def fetch_dblp_entry_norm (hits : List Hit) (orig : Option String) : MatchDecision :=
  match hits with
  | [] => .rejected .no_hits
  | [h] =>
      match h.info.authors with
      | some f =>
          if origTruthy orig then
            if normSimOf (orig.getD "") f < 70 then .rejected .low_similarity
            else .accepted h (some (normSimOf (orig.getD "") f))
          else .accepted h none
      | none => .accepted h none
  | _ :: _ :: _ =>
      if origTruthy orig then
        if 70 ≤ (bestScanNorm hits (orig.getD "")).2 then
          match (bestScanNorm hits (orig.getD "")).1 with
          | some b => .accepted b (some (bestScanNorm hits (orig.getD "")).2)
          | none => .rejected .low_similarity
        else .rejected .low_similarity
      else .rejected .ambiguous_no_authors

/-- The content normalize_bibtex_file of dblp-norm.py writes: the entries
joined by one blank line, with nothing appended. -/
def normalize_bibtex_output (entries : List String) : String :=
  String.mk (joinSep ['\n', '\n'] (entries.map String.data))

/-- The content update_bib_file of dblp-from-pdf.py leaves in the file:
unchanged when there are no new entries, else the stripped previous content
(followed by a blank line when nonempty), the new entries joined by blank
lines, and a final newline. -/
def update_bib_file_pdf (existing : String) (entries : List String) : String :=
  if entries = [] then existing
  else
    String.mk
      ((if stripChars existing.data = [] then [] else stripChars existing.data ++ ['\n', '\n'])
        ++ joinSep ['\n', '\n'] (entries.map String.data) ++ ['\n'])

/-- The last character of a string, if any. -/
def lastChar (s : String) : Option Char := s.data.getLast?

/-- Sample hit whose single author object has text abcd. -/
def hitAB : Hit := ⟨⟨some (.alist [some "abcd"]), "https://dblp.org/rec/a"⟩⟩

/-- Sample hit with no authors field. -/
def hitNoAuth : Hit := ⟨⟨none, "https://dblp.org/rec/b"⟩⟩

section

end

lemma listJoinMap_mem {α β : Type} {f : α → List β} :
    ∀ {l : List α} {y : β}, y ∈ listJoinMap f l → ∃ x ∈ l, y ∈ f x := by
  intro l
  induction l with
  | nil => intro y h; simp [listJoinMap] at h
  | cons a t ih =>
      intro y h
      rw [listJoinMap] at h
      rcases List.mem_append.mp h with h1 | h2
      · exact ⟨a, List.mem_cons_self a t, h1⟩
      · obtain ⟨x, hx, hy⟩ := ih h2
        exact ⟨x, List.mem_cons_of_mem a hx, hy⟩

lemma matchCandidates_ok (a b : List Char) :
    ∀ c ∈ matchCandidates a b, sliceOk a b c.1 c.2.1 c.2.2 = true := by
  intro c hc
  unfold matchCandidates at hc
  obtain ⟨k, _, hc⟩ := listJoinMap_mem hc
  obtain ⟨i, _, hc⟩ := listJoinMap_mem hc
  obtain ⟨j, _, hc⟩ := listJoinMap_mem hc
  split at hc
  · next hs =>
      rcases List.mem_singleton.mp hc with rfl
      exact hs
  · simp at hc

lemma findLongestMatch_ok (a b : List Char) :
    sliceOk a b (findLongestMatch a b).1 (findLongestMatch a b).2.1
      (findLongestMatch a b).2.2 = true := by
  unfold findLongestMatch
  cases h : matchCandidates a b with
  | nil => simp [sliceOk]
  | cons c t =>
      simp only [List.headD_cons]
      exact matchCandidates_ok a b c (h ▸ List.mem_cons_self c t)

lemma sliceOk_bounds {a b : List Char} {i j k : ℕ} (h : sliceOk a b i j k = true) :
    i + k ≤ a.length ∧ j + k ≤ b.length := by
  simp only [sliceOk, Bool.and_eq_true, decide_eq_true_eq] at h
  exact ⟨h.1.1, h.1.2⟩

lemma matchingTotalFuel_le :
    ∀ (fuel : ℕ) (a b : List Char),
      matchingTotalFuel fuel a b ≤ a.length ∧ matchingTotalFuel fuel a b ≤ b.length := by
  intro fuel
  induction fuel with
  | zero => intro a b; simp [matchingTotalFuel]
  | succ n ih =>
      intro a b
      obtain ⟨h1, h2⟩ := sliceOk_bounds (findLongestMatch_ok a b)
      rw [matchingTotalFuel]
      split
      · simp
      · next hk =>
          obtain ⟨iha1, ihb1⟩ := ih (a.take (findLongestMatch a b).1)
            (b.take (findLongestMatch a b).2.1)
          obtain ⟨iha2, ihb2⟩ := ih
            (a.drop ((findLongestMatch a b).1 + (findLongestMatch a b).2.2))
            (b.drop ((findLongestMatch a b).2.1 + (findLongestMatch a b).2.2))
          rw [List.length_take] at iha1 ihb1
          rw [List.length_drop] at iha2 ihb2
          omega

lemma matchingTotal_le (a b : List Char) :
    matchingTotal a b ≤ a.length ∧ matchingTotal a b ≤ b.length :=
  matchingTotalFuel_le (a.length + 1) a b

lemma sliceOk_self (a : List Char) : sliceOk a a 0 0 a.length = true := by
  simp [sliceOk]

lemma matchCandidates_self (a : List Char) :
    ∃ t, matchCandidates a a = (0, 0, a.length) :: t := by
  unfold matchCandidates
  rw [Nat.min_self, List.range_succ, List.reverse_append]
  simp only [List.reverse_cons, List.reverse_nil, List.nil_append, List.singleton_append]
  rw [listJoinMap]
  rw [show a.length + 1 - a.length = 1 from by omega]
  rw [show List.range 1 = [0] from by decide]
  rw [listJoinMap, listJoinMap, listJoinMap, listJoinMap]
  rw [sliceOk_self]
  exact ⟨_, rfl⟩

lemma findLongestMatch_self (a : List Char) : findLongestMatch a a = (0, 0, a.length) := by
  obtain ⟨t, ht⟩ := matchCandidates_self a
  unfold findLongestMatch
  rw [ht]
  rfl

lemma matchingTotalFuel_nil : ∀ fuel : ℕ, matchingTotalFuel fuel [] [] = 0 := by
  intro fuel
  cases fuel with
  | zero => rfl
  | succ n => rw [matchingTotalFuel, findLongestMatch_self]; simp

lemma matchingTotalFuel_self (fuel : ℕ) (a : List Char) (h : a.length < fuel) :
    matchingTotalFuel fuel a a = a.length := by
  cases fuel with
  | zero => omega
  | succ n =>
      rw [matchingTotalFuel, findLongestMatch_self]
      split
      · next h0 =>
          simp only at h0
          omega
      · next h0 =>
          simp only [List.take_zero, Nat.zero_add, List.drop_length, matchingTotalFuel_nil]
          omega

lemma matchingTotal_self (a : List Char) : matchingTotal a a = a.length :=
  matchingTotalFuel_self (a.length + 1) a (by omega)

lemma ratFloor_eq (q : ℚ) : (Rat.floor q : ℤ) = ⌊q⌋ := by
  rw [Rat.floor_def', Rat.floor_def]

lemma pyRound_nonneg {q : ℚ} (h : 0 ≤ q) : 0 ≤ pyRound q := by
  have hf : (0 : ℤ) ≤ ⌊q⌋ := Int.floor_nonneg.mpr h
  unfold pyRound
  rw [ratFloor_eq]
  split_ifs <;> omega

lemma pyRound_le {q : ℚ} {n : ℤ} (h : q ≤ (n : ℚ)) : pyRound q ≤ n := by
  have hfn : ⌊q⌋ ≤ n := by
    have := Int.floor_le_floor h
    rwa [Int.floor_intCast] at this
  have hstrict : ¬(q - (⌊q⌋ : ℚ) < 1/2) → ⌊q⌋ + 1 ≤ n := by
    intro hr
    push_neg at hr
    rcases lt_or_eq_of_le hfn with h' | h'
    · omega
    · exfalso
      rw [h'] at hr
      have hle : (n : ℚ) ≤ q - 1/2 := by linarith
      linarith
  unfold pyRound
  rw [ratFloor_eq]
  split_ifs with h1 h2 h3
  · exact hfn
  · exact hstrict h1
  · exact hfn
  · exact hstrict h1

lemma pyRound_intCast (n : ℤ) : pyRound ((n : ℤ) : ℚ) = n := by
  unfold pyRound
  rw [ratFloor_eq, Int.floor_intCast]
  simp

lemma seqScore_le (a b : List Char) : seqScore a b ≤ 100 := by
  unfold seqScore
  split
  · exact le_refl 100
  · next hT =>
      obtain ⟨hM1, hM2⟩ := matchingTotal_le a b
      have hpos : (0 : ℚ) < ((a.length + b.length : ℕ) : ℚ) := by
        have : 0 < a.length + b.length := by omega
        exact_mod_cast this
      have hq : ((200 * matchingTotal a b : ℕ) : ℚ) / ((a.length + b.length : ℕ) : ℚ)
          ≤ ((100 : ℤ) : ℚ) := by
        rw [div_le_iff₀ hpos]
        push_cast
        have c1 : ((matchingTotal a b : ℕ) : ℚ) ≤ ((a.length : ℕ) : ℚ) := by exact_mod_cast hM1
        have c2 : ((matchingTotal a b : ℕ) : ℚ) ≤ ((b.length : ℕ) : ℚ) := by exact_mod_cast hM2
        linarith
      exact Int.toNat_le.mpr (pyRound_le hq)

lemma seqScore_self (a : List Char) : seqScore a a = 100 := by
  unfold seqScore
  split
  · rfl
  · next hT =>
      rw [matchingTotal_self]
      have hla : a.length ≠ 0 := by omega
      have hcast : ((a.length : ℕ) : ℚ) ≠ 0 := by exact_mod_cast hla
      have hval : ((200 * a.length : ℕ) : ℚ) / ((a.length + a.length : ℕ) : ℚ)
          = ((100 : ℤ) : ℚ) := by
        push_cast
        field_simp
        ring
      rw [hval, pyRound_intCast]
      rfl

lemma tokenSortScore_le (s1 s2 : String) : tokenSortScore s1 s2 ≤ 100 :=
  seqScore_le _ _

lemma tokenSortScore_self (s : String) : tokenSortScore s s = 100 :=
  seqScore_self _

lemma bestMatchScore_le (q : String) (choices : List String) :
    bestMatchScore q choices ≤ 100 := by
  unfold bestMatchScore
  induction choices with
  | nil => simp
  | cons c t ih =>
      simp only [List.map_cons, List.foldr_cons, Nat.max_le]
      exact ⟨tokenSortScore_le q c, ih⟩

lemma avgScore_nonneg (l1 l2 : List String) : 0 ≤ avgScore l1 l2 := by
  unfold avgScore
  apply div_nonneg
  · apply List.sum_nonneg
    intro x hx
    obtain ⟨a, _, rfl⟩ := List.mem_map.mp hx
    exact_mod_cast Nat.zero_le _
  · exact_mod_cast Nat.zero_le _

lemma avgScore_le (l1 l2 : List String) : avgScore l1 l2 ≤ 100 := by
  unfold avgScore
  rcases eq_or_ne l1 [] with rfl | hne
  · simp
  · have hlen : 0 < ((l1.length : ℕ) : ℚ) := by
      have : 0 < l1.length := List.length_pos.mpr hne
      exact_mod_cast this
    rw [div_le_iff₀ hlen]
    have hsum : (l1.map (fun x => ((bestMatchScore x l2 : ℕ) : ℚ))).sum
        ≤ (l1.map (fun x => ((bestMatchScore x l2 : ℕ) : ℚ))).length • (100 : ℚ) := by
      apply List.sum_le_card_nsmul
      intro x hx
      obtain ⟨a, _, rfl⟩ := List.mem_map.mp hx
      exact_mod_cast bestMatchScore_le a l2
    rw [List.length_map, nsmul_eq_mul] at hsum
    linarith

lemma sim_pdf_range (a1 a2 : AuthorsArg) :
    0 ≤ get_author_similarity_pdf a1 a2 ∧ get_author_similarity_pdf a1 a2 ≤ 100 := by
  unfold get_author_similarity_pdf
  split
  · norm_num
  · split
    · split_ifs with h1 h2
      · norm_num
      · norm_num
      · constructor
        · exact_mod_cast Nat.zero_le _
        · exact_mod_cast tokenSortScore_le _ _
      · norm_num
    · exact ⟨avgScore_nonneg _ _, avgScore_le _ _⟩

lemma sim_norm_range (a1 a2 : AuthorsArg) :
    0 ≤ get_author_similarity_norm a1 a2 ∧ get_author_similarity_norm a1 a2 ≤ 100 := by
  unfold get_author_similarity_norm
  split
  · norm_num
  · exact ⟨avgScore_nonneg _ _, avgScore_le _ _⟩

lemma bestScanAux_spec (sim : AuthorsField → ℚ) :
    ∀ (hits : List Hit) (acc : Option Hit × ℚ),
      (bestScanAux sim hits acc = acc
         ∧ ∀ h ∈ hits, ∀ f, h.info.authors = some f → sim f ≤ acc.2)
      ∨ (∃ b l1 l2, hits = l1 ++ b :: l2
           ∧ (bestScanAux sim hits acc).1 = some b
           ∧ (∃ f, b.info.authors = some f ∧ sim f = (bestScanAux sim hits acc).2)
           ∧ acc.2 < (bestScanAux sim hits acc).2
           ∧ (∀ h ∈ l1, ∀ f, h.info.authors = some f → sim f < (bestScanAux sim hits acc).2)
           ∧ (∀ h ∈ l2, ∀ f, h.info.authors = some f →
                sim f ≤ (bestScanAux sim hits acc).2)) := by
  intro hits
  induction hits with
  | nil =>
      intro acc
      left
      refine ⟨rfl, ?_⟩
      intro h hmem
      simp at hmem
  | cons a t ih =>
      intro acc
      cases hmatch : a.info.authors with
      | none =>
          have hstep : bestScanAux sim (a :: t) acc = bestScanAux sim t acc := by
            rw [bestScanAux, hmatch]
          rw [hstep]
          rcases ih acc with ⟨heq, hub⟩ | ⟨b, l1, l2, heqs, hbm, hfex, hgt, hl1, hl2⟩
          · left
            refine ⟨heq, ?_⟩
            intro h hmem f hf
            rcases List.mem_cons.mp hmem with rfl | hmem2
            · rw [hmatch] at hf; cases hf
            · exact hub h hmem2 f hf
          · right
            refine ⟨b, a :: l1, l2, by rw [heqs, List.cons_append], hbm, hfex, hgt, ?_, hl2⟩
            intro h hmem f hf
            rcases List.mem_cons.mp hmem with rfl | hmem2
            · rw [hmatch] at hf; cases hf
            · exact hl1 h hmem2 f hf
      | some f =>
          by_cases hcmp : acc.2 < sim f
          · have hstep :
                bestScanAux sim (a :: t) acc = bestScanAux sim t (some a, sim f) := by
              rw [bestScanAux, hmatch]
              simp [hcmp]
            rw [hstep]
            rcases ih (some a, sim f) with ⟨heq, hub⟩ |
              ⟨b, l1, l2, heqs, hbm, hfex, hgt, hl1, hl2⟩
            · right
              refine ⟨a, [], t, by simp, ?_, ⟨f, hmatch, ?_⟩, ?_, ?_, ?_⟩
              · rw [heq]
              · rw [heq]
              · rw [heq]; exact hcmp
              · intro h hmem; simp at hmem
              · intro h hmem f' hf'
                have := hub h hmem f' hf'
                rw [heq]
                exact this
            · right
              refine ⟨b, a :: l1, l2, by rw [heqs, List.cons_append], hbm, hfex, ?_, ?_, hl2⟩
              · exact lt_trans hcmp hgt
              · intro h hmem f' hf'
                rcases List.mem_cons.mp hmem with rfl | hmem2
                · rw [hmatch] at hf'
                  injection hf' with hff
                  rw [← hff]
                  exact hgt
                · exact hl1 h hmem2 f' hf'
          · have hstep : bestScanAux sim (a :: t) acc = bestScanAux sim t acc := by
              rw [bestScanAux, hmatch]
              simp [hcmp]
            rw [hstep]
            rcases ih acc with ⟨heq, hub⟩ | ⟨b, l1, l2, heqs, hbm, hfex, hgt, hl1, hl2⟩
            · left
              refine ⟨heq, ?_⟩
              intro h hmem f' hf'
              rcases List.mem_cons.mp hmem with rfl | hmem2
              · rw [hmatch] at hf'
                injection hf' with hff
                rw [← hff]
                exact not_lt.mp hcmp
              · exact hub h hmem2 f' hf'
            · right
              refine ⟨b, a :: l1, l2, by rw [heqs, List.cons_append], hbm, hfex, hgt, ?_, hl2⟩
              intro h hmem f' hf'
              rcases List.mem_cons.mp hmem with rfl | hmem2
              · rw [hmatch] at hf'
                injection hf' with hff
                rw [← hff]
                exact lt_of_le_of_lt (not_lt.mp hcmp) hgt
              · exact hl1 h hmem2 f' hf'

lemma bestScan_none_zero (sim : AuthorsField → ℚ) (hits : List Hit)
    (h : (bestScan sim hits).1 = none) : (bestScan sim hits).2 = 0 := by
  unfold bestScan at h ⊢
  rcases bestScanAux_spec sim hits (none, 0) with ⟨heq, _⟩ | ⟨b, _, _, _, hbm, _⟩
  · rw [heq]
  · rw [hbm] at h
    cases h

lemma bestScanAux_filter (sim : AuthorsField → ℚ) :
    ∀ (hits : List Hit) (acc : Option Hit × ℚ),
      bestScanAux sim (hits.filter fun h => (h.info.authors).isSome) acc
        = bestScanAux sim hits acc := by
  intro hits
  induction hits with
  | nil => intro acc; rfl
  | cons a t ih =>
      intro acc
      cases hmatch : a.info.authors with
      | none =>
          have hp : ((a.info.authors).isSome : Bool) = false := by rw [hmatch]; rfl
          rw [List.filter_cons_of_neg (by simp [hp])]
          rw [ih]
          rw [bestScanAux, hmatch]
      | some f =>
          have hp : ((a.info.authors).isSome : Bool) = true := by rw [hmatch]; rfl
          rw [List.filter_cons_of_pos (by simp [hp])]
          rw [bestScanAux, hmatch, bestScanAux, hmatch]
          rw [ih]

lemma joinSep_getLast (sep x : List Char) (hx : x ≠ []) :
    ∀ ls : List (List Char), (joinSep sep (ls ++ [x])).getLast? = x.getLast? := by
  intro ls
  induction ls with
  | nil => rfl
  | cons a ls ih =>
      cases ls with
      | nil =>
          show ((a ++ sep) ++ x).getLast? = x.getLast?
          exact List.getLast?_append_of_ne_nil _ hx
      | cons b ls2 =>
          show ((a ++ sep) ++ joinSep sep ((b :: ls2) ++ [x])).getLast? = x.getLast?
          have hne : joinSep sep ((b :: ls2) ++ [x]) ≠ [] := by
            intro hnil
            have hsome : (joinSep sep ((b :: ls2) ++ [x])).getLast?.isSome := by
              rw [ih]
              exact List.getLast?_isSome.mpr hx
            rw [hnil] at hsome
            simp at hsome
          rw [List.getLast?_append_of_ne_nil _ hne]
          exact ih

lemma argTruthy_of_isEmpty {a : AuthorsArg} (h : isEmptyArg a = true) :
    argTruthy a = false := by
  cases a with
  | ofStr s =>
      simp only [isEmptyArg, decide_eq_true_eq] at h
      simp [argTruthy, h]
  | ofList l =>
      simp only [isEmptyArg, decide_eq_true_eq] at h
      simp [argTruthy, h]
  | ofAuthorsList l => simp [isEmptyArg] at h
  | ofAuthorsOne t => simp [isEmptyArg] at h
  | ofObj t => simp [isEmptyArg] at h

lemma sim_pdf_eval (a1 a2 : AuthorsArg) (x y : String)
    (h1 : argTruthy a1 = true) (h2 : argTruthy a2 = true)
    (e1 : argNames a1 = [x]) (e2 : argNamesPdf2 a2 = [y]) :
    get_author_similarity_pdf a1 a2 =
      if x = y then 100
      else if isSubOf x y || isSubOf y x then 90
      else if 60 < tokenSortScore x y then ((tokenSortScore x y : ℕ) : ℚ) else 0 := by
  unfold get_author_similarity_pdf
  rw [h1, h2]
  simp only [e1, e2]
  simp

lemma sim_norm_single (v w : NameVal) :
    get_author_similarity_norm (.ofList [v]) (.ofList [w])
      = ((tokenSortScore (normalize_author_name v) (normalize_author_name w) : ℕ) : ℚ) := by
  unfold get_author_similarity_norm
  rw [show (!argTruthy (AuthorsArg.ofList [v]) || !argTruthy (AuthorsArg.ofList [w]))
        = false from rfl]
  simp only [Bool.false_eq_true, if_false, argNames, List.map_cons, List.map_nil,
    avgScore, bestMatchScore, List.foldr_cons, List.foldr_nil, List.sum_cons,
    List.sum_nil, List.length_cons, List.length_nil]
  simp [Nat.max_zero]

/-- Claim C3, counterexample: the normalizer maps the absent author (the
Python value None) to the string none, not to the empty string. -/
theorem claimC3_counterexample :
    normalize_author_name NameVal.vnone = "none"
  ∧ normalize_author_name NameVal.vnone ≠ "" := by
  exact ⟨by decide, by decide⟩

/-- Claim C3, amended: normalize_author_name is total; on None it returns
the lowercased rendering none of str applied to None, and it returns the
empty string on an author object without text, on one with empty text and
on the empty string. -/
theorem claimC3_amended_thm :
    normalize_author_name NameVal.vnone = "none"
  ∧ normalize_author_name (NameVal.vdict none) = ""
  ∧ normalize_author_name (NameVal.vdict (some "")) = ""
  ∧ normalize_author_name (NameVal.vstr "") = "" := by
  exact ⟨by decide, by decide, by decide, by decide⟩

/-- Claim C4: with an empty hit set both workflows reject as no_hits for
every original author argument, and with more than one hit and an absent
original author argument both reject as ambiguous_no_authors. -/
theorem claimC4_thm (hits : List Hit) (orig : Option String) :
    fetch_dblp_entry_pdf [] orig = .rejected .no_hits
  ∧ fetch_dblp_entry_norm [] orig = .rejected .no_hits
  ∧ (2 ≤ hits.length →
      fetch_dblp_entry_pdf hits none = .rejected .ambiguous_no_authors
    ∧ fetch_dblp_entry_norm hits none = .rejected .ambiguous_no_authors) := by
  refine ⟨rfl, rfl, ?_⟩
  intro hlen
  cases hits with
  | nil => simp at hlen
  | cons a t =>
      cases t with
      | nil => simp at hlen
      | cons b t2 => exact ⟨rfl, rfl⟩

/-- Claim C4, witness. -/
theorem claimC4_witness :
    2 ≤ ([hitAB, hitNoAuth] : List Hit).length
  ∧ fetch_dblp_entry_pdf [hitAB, hitNoAuth] none = .rejected .ambiguous_no_authors
  ∧ fetch_dblp_entry_norm [hitAB, hitNoAuth] none = .rejected .ambiguous_no_authors :=
  ⟨by decide, (claimC4_thm [hitAB, hitNoAuth] none).2.2 (by decide)⟩

/-- Claim C5: in the best match scan shared by both multiple hit branches,
hits without an authors field are skipped: the scan equals the scan of the
author bearing sublist, for every similarity function and every mixture of
author bearing and authorless hits, and in particular it is total. -/
theorem claimC5_thm (sim : AuthorsField → ℚ) (hits : List Hit) :
    bestScan sim (hits.filter fun h => (h.info.authors).isSome) = bestScan sim hits :=
  bestScanAux_filter sim hits (none, 0)

/-- Claim C6: with exactly one hit, an absent original author argument or
a hit without an authors field makes both workflows accept that hit with
no similarity check. -/
theorem claimC6_thm (h : Hit) (orig : Option String)
    (hcond : orig = none ∨ h.info.authors = none) :
    fetch_dblp_entry_pdf [h] orig = .accepted h none
  ∧ fetch_dblp_entry_norm [h] orig = .accepted h none := by
  rcases hcond with rfl | hnone
  · cases hf : h.info.authors with
    | none =>
        constructor
        · simp [fetch_dblp_entry_pdf, hf]
        · simp [fetch_dblp_entry_norm, hf]
    | some f =>
        constructor
        · simp [fetch_dblp_entry_pdf, hf, origTruthy]
        · simp [fetch_dblp_entry_norm, hf, origTruthy]
  · constructor
    · simp [fetch_dblp_entry_pdf, hnone]
    · simp [fetch_dblp_entry_norm, hnone]

/-- Claim C6, witness: the single authorless hit is accepted even with an
original author present. -/
theorem claimC6_witness :
    fetch_dblp_entry_pdf [hitNoAuth] (some "Anyone") = .accepted hitNoAuth none
  ∧ fetch_dblp_entry_norm [hitNoAuth] (some "Anyone") = .accepted hitNoAuth none :=
  claimC6_thm hitNoAuth (some "Anyone") (Or.inr rfl)

/-- Claim C7: both similarity functions return a score in the interval
from 0 to 100 on every pair of inputs, and return exactly 0 whenever
either input list is empty. -/
theorem claimC7_thm (a1 a2 : AuthorsArg) :
    (0 ≤ get_author_similarity_pdf a1 a2 ∧ get_author_similarity_pdf a1 a2 ≤ 100)
  ∧ (0 ≤ get_author_similarity_norm a1 a2 ∧ get_author_similarity_norm a1 a2 ≤ 100)
  ∧ ((isEmptyArg a1 || isEmptyArg a2) = true →
      get_author_similarity_pdf a1 a2 = 0 ∧ get_author_similarity_norm a1 a2 = 0) := by
  refine ⟨sim_pdf_range a1 a2, sim_norm_range a1 a2, ?_⟩
  intro hempty
  have hguard : (!argTruthy a1 || !argTruthy a2) = true := by
    have hor : isEmptyArg a1 = true ∨ isEmptyArg a2 = true := by simpa using hempty
    rcases hor with he | he
    · rw [argTruthy_of_isEmpty he]; simp
    · rw [argTruthy_of_isEmpty he]; simp
  constructor
  · unfold get_author_similarity_pdf
    rw [hguard]
    rfl
  · unfold get_author_similarity_norm
    rw [hguard]
    rfl

/-- Claim C7, witness. -/
theorem claimC7_witness :
    (isEmptyArg (AuthorsArg.ofStr "") || isEmptyArg (AuthorsArg.ofStr "anyone")) = true
  ∧ get_author_similarity_pdf (.ofStr "") (.ofStr "anyone") = 0
  ∧ get_author_similarity_norm (.ofStr "") (.ofStr "anyone") = 0 :=
  ⟨by decide, (claimC7_thm (.ofStr "") (.ofStr "anyone")).2.2 (by decide)⟩

/-- Claim C1, counterexample: two hits whose best author similarity in the
normalization workflow is 67, hence at least 60, are rejected by
fetch_dblp_entry of dblp-norm.py with low_similarity, so the 60 point
floor does not govern both workflows. -/
theorem claimC1_counterexample :
    (bestScanNorm [hitAB, hitNoAuth] "ab").2 = 67
  ∧ 60 ≤ (bestScanNorm [hitAB, hitNoAuth] "ab").2
  ∧ fetch_dblp_entry_norm [hitAB, hitNoAuth] (some "ab") = .rejected .low_similarity := by
  exact ⟨by decide, by decide, by decide⟩

/-- Claim C1, amended: with more than one hit and a truthy original author
string, each workflow scans the author bearing hits, tracks the maximum,
and accepts the scanned best hit exactly when the maximum reaches its own
floor, namely 60 in dblp-from-pdf.py but 70 in dblp-norm.py, rejecting
with low_similarity below the floor. -/
theorem claimC1_amended_thm (hits : List Hit) (o : String)
    (hlen : 2 ≤ hits.length) (ho : o ≠ "") :
    ((bestScanPdf hits o).2 < 60 →
        fetch_dblp_entry_pdf hits (some o) = .rejected .low_similarity)
  ∧ (60 ≤ (bestScanPdf hits o).2 →
      ∃ b, (bestScanPdf hits o).1 = some b
        ∧ fetch_dblp_entry_pdf hits (some o) = .accepted b (some (bestScanPdf hits o).2))
  ∧ ((bestScanNorm hits o).2 < 70 →
        fetch_dblp_entry_norm hits (some o) = .rejected .low_similarity)
  ∧ (70 ≤ (bestScanNorm hits o).2 →
      ∃ b, (bestScanNorm hits o).1 = some b
        ∧ fetch_dblp_entry_norm hits (some o)
            = .accepted b (some (bestScanNorm hits o).2)) := by
  have htruthy : origTruthy (some o) = true := by simp [origTruthy, ho]
  cases hits with
  | nil => simp at hlen
  | cons a t =>
      cases t with
      | nil => simp at hlen
      | cons a2 t2 =>
          refine ⟨?_, ?_, ?_, ?_⟩
          · intro hlt
            simp only [fetch_dblp_entry_pdf, htruthy, if_true, Option.getD_some]
            rw [if_neg (not_le.mpr hlt)]
          · intro hge
            have hbm : ∃ b, (bestScanPdf (a :: a2 :: t2) o).1 = some b := by
              cases hb : (bestScanPdf (a :: a2 :: t2) o).1 with
              | none =>
                  have h0 := bestScan_none_zero (pdfSimOf o) (a :: a2 :: t2) hb
                  rw [show bestScan (pdfSimOf o) (a :: a2 :: t2)
                        = bestScanPdf (a :: a2 :: t2) o from rfl] at h0
                  rw [h0] at hge
                  norm_num at hge
              | some b => exact ⟨b, rfl⟩
            obtain ⟨b, hb⟩ := hbm
            refine ⟨b, hb, ?_⟩
            simp only [fetch_dblp_entry_pdf, htruthy, if_true, Option.getD_some]
            rw [if_pos hge, hb]
          · intro hlt
            simp only [fetch_dblp_entry_norm, htruthy, if_true, Option.getD_some]
            rw [if_neg (not_le.mpr hlt)]
          · intro hge
            have hbm : ∃ b, (bestScanNorm (a :: a2 :: t2) o).1 = some b := by
              cases hb : (bestScanNorm (a :: a2 :: t2) o).1 with
              | none =>
                  have h0 := bestScan_none_zero (normSimOf o) (a :: a2 :: t2) hb
                  rw [show bestScan (normSimOf o) (a :: a2 :: t2)
                        = bestScanNorm (a :: a2 :: t2) o from rfl] at h0
                  rw [h0] at hge
                  norm_num at hge
              | some b => exact ⟨b, rfl⟩
            obtain ⟨b, hb⟩ := hbm
            refine ⟨b, hb, ?_⟩
            simp only [fetch_dblp_entry_norm, htruthy, if_true, Option.getD_some]
            rw [if_pos hge, hb]

/-- Claim C1, amended, witness: the pdf workflow accepts the concrete pair
of hits at its 60 floor while the norm workflow rejects the same titles at
its 70 floor. -/
theorem claimC1_amended_witness :
    fetch_dblp_entry_norm [hitAB, hitNoAuth] (some "ab") = .rejected .low_similarity
  ∧ fetch_dblp_entry_pdf [hitAB, hitNoAuth] (some "ab") = .accepted hitAB (some 90) := by
  constructor
  · exact (claimC1_amended_thm [hitAB, hitNoAuth] "ab" (by decide) (by decide)).2.2.1
      (by decide)
  · obtain ⟨b, hb, hacc⟩ :=
      (claimC1_amended_thm [hitAB, hitNoAuth] "ab" (by decide) (by decide)).2.1 (by decide)
    have hbv : (bestScanPdf [hitAB, hitNoAuth] "ab").1 = some hitAB := by decide
    rw [hb] at hbv
    injection hbv with hbb
    rw [hbb] at hacc
    have h2 : (bestScanPdf [hitAB, hitNoAuth] "ab").2 = 90 := by decide
    rw [h2] at hacc
    exact hacc

/-- Claim C2, counterexample: on single author lists where one normalized
name is contained in the other, get_author_similarity of dblp-norm.py
returns the token sort score 67, not the 90 the claimed fast path of both
files would give: the fast path exists only in dblp-from-pdf.py. -/
theorem claimC2_counterexample :
    isSubOf (normalize_author_name (.vstr "jo")) (normalize_author_name (.vstr "john")) = true
  ∧ get_author_similarity_norm (.ofStr "jo") (.ofStr "john") = 67
  ∧ get_author_similarity_norm (.ofStr "jo") (.ofStr "john") ≠ 90 := by
  exact ⟨by decide, by decide, by decide⟩

/-- Claim C2, amended: the single author fast path belongs to
dblp-from-pdf.py alone: when each side normalizes and splits to exactly
one name, its similarity is 100 on equality, 90 on substring containment
either way, and otherwise the token sort score when that score exceeds 60
and 0 when it does not. -/
theorem claimC2_amended_thm (a1 a2 : AuthorsArg) (x y : String)
    (h1 : argTruthy a1 = true) (h2 : argTruthy a2 = true)
    (e1 : argNames a1 = [x]) (e2 : argNamesPdf2 a2 = [y]) :
    get_author_similarity_pdf a1 a2 =
      if x = y then 100
      else if isSubOf x y || isSubOf y x then 90
      else if 60 < tokenSortScore x y then ((tokenSortScore x y : ℕ) : ℚ) else 0 :=
  sim_pdf_eval a1 a2 x y h1 h2 e1 e2

/-- Claim C2, amended, witness. -/
theorem claimC2_amended_witness :
    get_author_similarity_pdf (.ofStr "alice") (.ofList [.vstr "alice"]) = 100 :=
  (claimC2_amended_thm (.ofStr "alice") (.ofList [.vstr "alice"]) "alice" "alice"
    (by decide) (by decide) (by decide) (by decide)).trans (by decide)

/-- Claim C8, counterexample: the containment case is not scored 90 in
both workflows: dblp-norm.py scores the contained pair at the token sort
value 67 in both directions. -/
theorem claimC8_counterexample :
    (isSubOf (normalize_author_name (.vstr "cd")) (normalize_author_name (.vstr "abcd"))
      || isSubOf (normalize_author_name (.vstr "abcd"))
           (normalize_author_name (.vstr "cd"))) = true
  ∧ get_author_similarity_norm (.ofList [.vstr "cd"]) (.ofList [.vstr "abcd"]) = 67
  ∧ get_author_similarity_norm (.ofList [.vstr "abcd"]) (.ofList [.vstr "cd"]) = 67
  ∧ get_author_similarity_norm (.ofList [.vstr "cd"]) (.ofList [.vstr "abcd"]) ≠ 90 := by
  exact ⟨by decide, by decide, by decide, by decide⟩

/-- Claim C8, amended: every nonempty single author list scores 100
against itself in both workflows; the single author exact case is
symmetric with value 100 in both workflows; the containment case is
symmetric with value 90 in dblp-from-pdf.py only, dblp-norm.py having no
containment case. -/
theorem claimC8_amended_thm (v w : NameVal) :
    (get_author_similarity_pdf (.ofList [v]) (.ofList [v]) = 100
      ∧ get_author_similarity_norm (.ofList [v]) (.ofList [v]) = 100)
  ∧ (normalize_author_name v = normalize_author_name w →
       get_author_similarity_pdf (.ofList [v]) (.ofList [w]) = 100
     ∧ get_author_similarity_pdf (.ofList [w]) (.ofList [v]) = 100
     ∧ get_author_similarity_norm (.ofList [v]) (.ofList [w]) = 100
     ∧ get_author_similarity_norm (.ofList [w]) (.ofList [v]) = 100)
  ∧ (normalize_author_name v ≠ normalize_author_name w →
     (isSubOf (normalize_author_name v) (normalize_author_name w)
       || isSubOf (normalize_author_name w) (normalize_author_name v)) = true →
       get_author_similarity_pdf (.ofList [v]) (.ofList [w]) = 90
     ∧ get_author_similarity_pdf (.ofList [w]) (.ofList [v]) = 90) := by
  have hev : ∀ v' w' : NameVal,
      get_author_similarity_pdf (.ofList [v']) (.ofList [w']) =
        if normalize_author_name v' = normalize_author_name w' then 100
        else if isSubOf (normalize_author_name v') (normalize_author_name w')
            || isSubOf (normalize_author_name w') (normalize_author_name v') then 90
        else if 60 < tokenSortScore (normalize_author_name v') (normalize_author_name w')
          then ((tokenSortScore (normalize_author_name v') (normalize_author_name w') : ℕ) : ℚ)
          else 0 :=
    fun v' w' => sim_pdf_eval _ _ _ _ rfl rfl rfl rfl
  refine ⟨⟨?_, ?_⟩, ?_, ?_⟩
  · rw [hev v v]
    simp
  · rw [sim_norm_single v v, tokenSortScore_self]
    norm_num
  · intro heq
    refine ⟨?_, ?_, ?_, ?_⟩
    · rw [hev v w, if_pos heq]
    · rw [hev w v, if_pos heq.symm]
    · rw [sim_norm_single v w, heq, tokenSortScore_self]
      norm_num
    · rw [sim_norm_single w v, heq, tokenSortScore_self]
      norm_num
  · intro hne hsub
    constructor
    · rw [hev v w, if_neg hne, if_pos hsub]
    · rw [hev w v, if_neg (fun hs => hne hs.symm)]
      rw [if_pos (by rw [Bool.or_comm]; exact hsub)]

/-- Claim C8, amended, witness. -/
theorem claimC8_amended_witness :
    get_author_similarity_pdf (.ofList [.vstr "dana"]) (.ofList [.vstr "dana lee"]) = 90
  ∧ get_author_similarity_pdf (.ofList [.vstr "dana lee"]) (.ofList [.vstr "dana"]) = 90 :=
  (claimC8_amended_thm (.vstr "dana") (.vstr "dana lee")).2.2 (by decide) (by decide)

/-- Claim C9, counterexample: the output of the normalization workflow is
the plain blank line join of the entries: on one entry it is that entry
itself, with no trailing newline. -/
theorem claimC9_counterexample :
    normalize_bibtex_output ["entryA"] = "entryA"
  ∧ lastChar (normalize_bibtex_output ["entryA"]) ≠ some '\n' := by
  exact ⟨by decide, by decide⟩

/-- Claim C9, amended: with at least one entry, the file content written
by update_bib_file of dblp-from-pdf.py ends with a newline, while the
content written by normalize_bibtex_file of dblp-norm.py is the blank
line join alone and ends with the last character of its last entry, so
with no newline whenever that entry does not itself end with one. -/
theorem claimC9_amended_thm (existing : String) (es : List String) (e : String)
    (hne : e.data ≠ []) (hnl : e.data.getLast? ≠ some '\n') :
    lastChar (update_bib_file_pdf existing (es ++ [e])) = some '\n'
  ∧ lastChar (normalize_bibtex_output (es ++ [e])) ≠ some '\n' := by
  constructor
  · unfold update_bib_file_pdf
    rw [if_neg (by simp)]
    show (((if stripChars existing.data = [] then [] else stripChars existing.data
        ++ ['\n', '\n']) ++ joinSep ['\n', '\n'] ((es ++ [e]).map String.data))
        ++ ['\n']).getLast? = some '\n'
    exact List.getLast?_concat _
  · unfold normalize_bibtex_output
    show (joinSep ['\n', '\n'] ((es ++ [e]).map String.data)).getLast? ≠ some '\n'
    rw [List.map_append]
    simp only [List.map_cons, List.map_nil]
    rw [joinSep_getLast _ _ hne]
    exact hnl

/-- Claim C9, amended, witness. -/
theorem claimC9_amended_witness :
    lastChar (update_bib_file_pdf "" ([] ++ ["entryA"])) = some '\n'
  ∧ lastChar (normalize_bibtex_output ([] ++ ["entryA"])) ≠ some '\n' :=
  claimC9_amended_thm "" [] "entryA" (by decide) (by decide)

/-- Claim C10: in the shared best match scan, a scan that selects no hit
has similarity 0; a selected best hit is author bearing, has positive
similarity equal to the tracked maximum, and is the earliest hit
attaining it, every author bearing hit strictly before it scoring
strictly below; and every author bearing hit scores at most the tracked
maximum.  In particular a hit of similarity exactly 0 is never selected,
even as the only author bearing hit. -/
theorem claimC10_thm (sim : AuthorsField → ℚ) (hits : List Hit) :
    ((bestScan sim hits).1 = none → (bestScan sim hits).2 = 0)
  ∧ (∀ b, (bestScan sim hits).1 = some b →
      0 < (bestScan sim hits).2
      ∧ (∃ f, b.info.authors = some f ∧ sim f = (bestScan sim hits).2)
      ∧ ∃ l1 l2, hits = l1 ++ b :: l2
          ∧ ∀ h ∈ l1, ∀ f, h.info.authors = some f → sim f < (bestScan sim hits).2)
  ∧ (∀ h ∈ hits, ∀ f, h.info.authors = some f → sim f ≤ (bestScan sim hits).2) := by
  refine ⟨fun hn => bestScan_none_zero sim hits hn, ?_, ?_⟩
  · intro b hb
    rcases bestScanAux_spec sim hits (none, 0) with ⟨heq, hub⟩ |
      ⟨b', l1, l2, heqs, hbm, hfex, hgt, hl1, hl2⟩
    · unfold bestScan at hb
      rw [heq] at hb
      cases hb
    · unfold bestScan at hb ⊢
      rw [hbm] at hb
      injection hb with hbb
      subst hbb
      exact ⟨hgt, hfex, l1, l2, heqs, hl1⟩
  · intro h hmem f hf
    rcases bestScanAux_spec sim hits (none, 0) with ⟨heq, hub⟩ |
      ⟨b', l1, l2, heqs, hbm, hfex, hgt, hl1, hl2⟩
    · unfold bestScan
      rw [heq]
      exact hub h hmem f hf
    · unfold bestScan
      rw [heqs] at hmem
      rcases List.mem_append.mp hmem with hm1 | hm2
      · exact le_of_lt (hl1 h hm1 f hf)
      · rcases List.mem_cons.mp hm2 with rfl | hm3
        · obtain ⟨f0, hf0, hval⟩ := hfex
          rw [hf0] at hf
          injection hf with hff
          rw [← hff]
          exact le_of_eq hval
        · exact hl2 h hm3 f hf

/-- Claim C10, witness: a scan over a single authorless hit selects no hit
and therefore reports similarity 0. -/
theorem claimC10_witness :
    (bestScan (normSimOf "alice") [hitNoAuth]).1 = none
  ∧ (bestScan (normSimOf "alice") [hitNoAuth]).2 = 0 :=
  ⟨by decide, (claimC10_thm (normSimOf "alice") [hitNoAuth]).1 (by decide)⟩

end
